import Mathlib

/- A shallow embedding of scripts/importExcelSignals.py from the sf-dta repository:
   the phase synthesizer (SignalData.getPhases), the time-period selector
   (selectCSO), the timing-row parser (getSignalIntervalData), the
   operating-times pass (checkForWeekdayPlan / getOperationTimes.setTimes and
   the FREE-code merge), the movement classifier (groupMovementToTurnType and
   mapMovements.getDirections), the phasing-grid row pipeline (getPhasingData
   and fillPhaseInfo), and the command-line argument check.
   Python floats are modelled as rationals, Python exceptions as Option/Except,
   Python dict-iteration order as the order of an explicit list. -/

/-- Booleanized infix test: does `sub` occur as a contiguous run of `l`. -/
def listInfix (sub : List Char) : List Char → Bool
  | [] => sub.isEmpty
  | a :: as => List.isPrefixOf sub (a :: as) || listInfix sub as

/-- Python `sub in s` substring containment. -/
def substrOf (sub s : String) : Bool := listInfix sub.toList s.toList

/-- Python `c in s` for a single character. -/
def ccontains (s : String) (c : Char) : Bool := s.toList.contains c

/-- Python `len(s)` (character count). -/
def clen (s : String) : Nat := s.toList.length

/-- Python `s[:n]` for `n ≥ 0`. -/
def ctake (s : String) (n : Nat) : String := String.mk (s.toList.take n)

/-- Python `s[n:]` for `n ≥ 0`. -/
def cdrop (s : String) (n : Nat) : String := String.mk (s.toList.drop n)

/-- Python `s[a:b]` for `a, b ≥ 0`. -/
def cslice (s : String) (a b : Nat) : String := String.mk ((s.toList.take b).drop a)

def isPySpace (c : Char) : Bool := c == ' ' || c == '\t' || c == '\n' || c == '\r'

/-- Python `s.strip()`. -/
def pyStrip (s : String) : String :=
  String.mk (((s.toList.dropWhile isPySpace).reverse.dropWhile isPySpace).reverse)

/-- Python `s.upper()`. -/
def pyUpper (s : String) : String := String.mk (s.toList.map Char.toUpper)

/-- Python `s.find(sub)`: index of the first occurrence, -1 when absent. -/
def pyFind (s sub : String) : Int :=
  match (List.range (s.toList.length + 1)).find?
      (fun i => List.isPrefixOf sub.toList (s.toList.drop i)) with
  | some i => (i : Int)
  | none => -1

/-- Python `s[:i]` with negative-index semantics. -/
def pySliceTo (s : String) (i : Int) : String :=
  let l := s.toList
  let stop := if i < 0 then (max ((l.length : Int) + i) 0).toNat else i.toNat
  String.mk (l.take stop)

/-- Python `s[i:]` with negative-index semantics. -/
def pySliceFrom (s : String) (i : Int) : String :=
  let l := s.toList
  let start := if i < 0 then (max ((l.length : Int) + i) 0).toNat else i.toNat
  String.mk (l.drop start)

def digitsValAux : List Char → Nat → Option Nat
  | [], acc => some acc
  | c :: cs, acc => if c.isDigit then digitsValAux cs (acc * 10 + (c.toNat - 48)) else none

/-- Value of a nonempty all-digit character run; `none` otherwise. -/
def digitsVal : List Char → Option Nat
  | [] => none
  | c :: cs => digitsValAux (c :: cs) 0

/-- Python `int(s)` on the decimal forms the signal cards contain
    (`none` models the ValueError). -/
def pyInt (s : String) : Option Int :=
  match (pyStrip s).toList with
  | '-' :: rest => (digitsVal rest).map (fun n => -(n : Int))
  | '+' :: rest => (digitsVal rest).map (fun n => (n : Int))
  | l => (digitsVal l).map (fun n => (n : Int))

/-- Python `float(s)` on the plain decimal forms the signal cards contain
    (`none` models the ValueError, e.g. for `float("--")`). -/
def pyFloat (s : String) : Option ℚ :=
  let t := (pyStrip s).toList
  let sgnRest : ℚ × List Char :=
    match t with
    | '-' :: rest => (-1, rest)
    | '+' :: rest => (1, rest)
    | l => (1, l)
  let sgn := sgnRest.1
  let u := sgnRest.2
  if u.contains '.' then
    let a := u.takeWhile (fun c => c != '.')
    let b := (u.dropWhile (fun c => c != '.')).drop 1
    if b.contains '.' then none
    else if a = [] ∧ b = [] then none
    else
      let av := if a = [] then some 0 else digitsVal a
      let bv := if b = [] then some 0 else digitsVal b
      match av, bv with
      | some x, some y => some (sgn * ((x : ℚ) + (y : ℚ) / (10 : ℚ) ^ b.length))
      | _, _ => none
  else (digitsVal u).map (fun n => sgn * (n : ℚ))

/- ## The phase synthesizer: SignalData.getPhases (lines 201-313).
   The phasing grid is the post-fill MultiArray: a keyed table, modelled as a
   list of (movement-group label, per-interval state string) rows; the interval
   durations are the `times` of the selected ExcelSignalTiming. -/

/-- One accumulated phase (the pPhase/cPhase dictionaries of getPhases). -/
structure PPhase where
  movs : List String
  green : ℚ
  yellow : ℚ
  allRed : ℚ
deriving DecidableEq, Repr

/-- phasingData.getElementsOfDimention(0): the movement-group labels in row order. -/
def gmovs (grid : List (String × List String)) : List String := grid.map Prod.fst

/-- phasingData[gMov, timeIndex]: keyed lookup of the state of movement `m`
    at the 1-based interval `t`. -/
def cellState (grid : List (String × List String)) (m : String) (t : Nat) : String :=
  match grid.find? (fun r => r.1 == m) with
  | some r => r.2.getD (t - 1) ""
  | none => ""

/-- The list comprehension for cGreenMovs at interval `t`. -/
def greenMovs (grid : List (String × List String)) (t : Nat) : List String :=
  (gmovs grid).filter (fun m => cellState grid m t == "G")

/-- The list comprehension for cYellowMovs at interval `t`. -/
def yellowMovs (grid : List (String × List String)) (t : Nat) : List String :=
  (gmovs grid).filter (fun m => cellState grid m t == "Y")

/-- The list comprehension for cRedMovs at interval `t`. -/
def redMovs (grid : List (String × List String)) (t : Nat) : List String :=
  (gmovs grid).filter (fun m => cellState grid m t == "R")

/-- The gMatches/yMatches/rMatches counting loops: how many entries of `xs`
    are members of `pm`. -/
def countIn (xs pm : List String) : Nat := xs.countP (fun m => pm.elem m)

/-- The if/elif chain of getPhases for one interval `t` of duration `d`,
    given the accumulator `pPhase`. Returns the phases pushed during this
    interval and the new accumulator; `none` models the NameError raised by
    the final fallback branch, whose body reads the undefined `cActiveMovs`. -/
def stepOne (grid : List (String × List String)) (t : Nat) (d : ℚ)
    (pPhase : PPhase) : Option (List PPhase × PPhase) :=
  let cG := greenMovs grid t
  let cY := yellowMovs grid t
  let cR := redMovs grid t
  let gM := countIn cG pPhase.movs
  let yM := countIn cY pPhase.movs
  let rM := countIn cR pPhase.movs
  if cG.length + cY.length > gM + yM then
    some ([pPhase], ⟨cG, d, 0, 0⟩)
  else if gM + yM = pPhase.movs.length then
    if 0 < yM then some ([], { pPhase with yellow := pPhase.yellow + d })
    else if 0 < rM then some ([], { pPhase with allRed := pPhase.allRed + d })
    else some ([], { pPhase with green := pPhase.green + d })
  else if gM + yM < pPhase.movs.length ∧ 0 < gM + yM then
    if yM = 0 then some ([pPhase], ⟨cG, d, 0, 0⟩)
    else some ([pPhase], ⟨cY, 0, d, 0⟩)
  else if rM = pPhase.movs.length ∧ cG = [] then
    some ([], { pPhase with allRed := pPhase.allRed + d })
  else if rM = pPhase.movs.length ∧ cG ≠ [] then
    some ([pPhase], ⟨cG, d, 0, 0⟩)
  else
    none

/-- The main loop of getPhases, after the first interval has seeded the
    accumulator. `N` is the last time index; reaching it appends the current
    accumulator to the output. -/
def phasesLoop (grid : List (String × List String)) (N : Nat) :
    List (Nat × ℚ) → PPhase → List PPhase → Option (List PPhase)
  | [], _, acc => some acc
  | (t, d) :: rest, pPhase, acc =>
    match stepOne grid t d pPhase with
    | none => none
    | some (pushed, p') =>
      phasesLoop grid N rest p' (if t = N then (acc ++ pushed) ++ [p'] else acc ++ pushed)

/-- The number of time intervals: the column count of the phasing grid. -/
def numIntervals (grid : List (String × List String)) : Nat :=
  match grid with
  | [] => 0
  | r :: _ => r.2.length

/-- SignalData.getPhases: walk `izip(timeIndices, timeIntervals)`; the first
    pair seeds the accumulator and `continue`s. `none` when `timeIndices` is
    empty (the `list(timeIndices)[-1]` IndexError) or when an interval falls
    through to the undefined-variable fallback. -/
def getPhases (grid : List (String × List String)) (durs : List ℚ) :
    Option (List PPhase) :=
  let N := numIntervals grid
  if N = 0 then none
  else
    match (List.range' 1 N).zip durs with
    | [] => some []
    | (t1, d1) :: rest => phasesLoop grid N rest ⟨greenMovs grid t1, d1, 0, 0⟩ []

/-- The worked example grid from the getPhases docstring, with the row names of the spec: MAIN EB / CROSS NB. -/
def exGrid : List (String × List String) :=
  [("MAIN EB", ["G", "G", "Y", "R", "R", "R", "R", "R"]),
   ("CROSS NB", ["R", "R", "R", "R", "G", "G", "Y", "R"])]

def exDurs : List ℚ := [47, 6, 3.5, 0.5, 8, 20, 3.5, 1.5]

/-- A second well-formed 8-interval card, used to instantiate the
    conservation theorem on concrete data. -/
def wGrid : List (String × List String) :=
  [("A ST EB", ["G", "G", "Y", "R", "R", "R", "R", "R"]),
   ("B ST NB", ["R", "R", "R", "R", "G", "G", "Y", "R"])]

def wDurs : List ℚ := [47, 6, 3.5, 0.5, 8, 20, 3.5, 1.5]

/-- A cell state may only be G, Y or R (what getPhasingData writes into the
    MultiArray). -/
def validState (s : String) : Prop := s = "G" ∨ s = "Y" ∨ s = "R"

/-- A well-formed grid/duration pair: every row has exactly as many cells as
    the interval count, every cell is G/Y/R, and the duration list has the
    length of the interval count. -/
def wellFormed (grid : List (String × List String)) (durs : List ℚ) : Prop :=
  (∀ r ∈ grid, r.2.length = numIntervals grid ∧ ∀ s ∈ r.2, validState s)
  ∧ durs.length = numIntervals grid

def phaseTotal (p : PPhase) : ℚ := p.green + p.yellow + p.allRed

def phasesTotal (ps : List PPhase) : ℚ := (ps.map phaseTotal).sum

/-- A well-formed single-interval card: two movement rows, one interval. -/
def oneIntervalGrid : List (String × List String) :=
  [("MAIN EB", ["G"]), ("CROSS NB", ["R"])]

def oneIntervalDurs : List ℚ := [47]

/-- A raw grid that drives interval 2 of getPhases into the final fallback
    branch (state "B" is outside the G/Y/R alphabet, so neither full
    continuity nor the all-red cases apply). -/
def fallbackGrid : List (String × List String) :=
  [("P", ["G", "B"]), ("Q", ["G", "R"])]

def fallbackDurs : List ℚ := [10, 5]

/- ## Operating periods and the time-period selector (selectCSO). -/

/-- Modelled from the spec: dta.Utils.Time (not under src/), a time-of-day
    with minute resolution; equality is fieldwise and the order compares
    total minutes. -/
structure DTime where
  hour : Int
  minute : Int
deriving DecidableEq, Repr

def DTime.toMin (t : DTime) : Int := 60 * t.hour + t.minute

/-- ExcelSignalTiming: one operating-period record. `cycle = some (-1)` is
    the DEFAULT_VALUE initializer; `none` models Python `None` (cycle unset,
    actuated). -/
structure ExcelSignalTiming where
  cso : String := ""
  cycle : Option ℚ := some (-1)
  offset : ℚ := 0
  isActuated : Bool := false
  startTime : DTime := ⟨23, 59⟩
  endTime : DTime := ⟨23, 59⟩
  times : List ℚ := []
deriving DecidableEq, Repr

/-- First pass of selectCSO: recorded start ≤ query start ≤ recorded end and
    recorded end strictly after recorded start. -/
def matchesWindow (q : DTime) (st : ExcelSignalTiming) : Bool :=
  decide (st.startTime.toMin ≤ q.toMin) && decide (q.toMin ≤ st.endTime.toMin)
    && decide (st.startTime.toMin < st.endTime.toMin)

/-- Second pass of selectCSO: the 0:00-0:00 all-other-times marker. -/
def isAllOtherTimes (st : ExcelSignalTiming) : Bool :=
  decide (st.startTime = ⟨0, 0⟩) && decide (st.endTime = ⟨0, 0⟩)

/-- Third pass of selectCSO: the 0:00-23:59 full-day default. -/
def isFullDay (st : ExcelSignalTiming) : Bool :=
  decide (st.startTime = ⟨0, 0⟩) && decide (st.endTime = ⟨23, 59⟩)

/-- The module-level selectCSO (lines 1479-1497): three sequential first-match
    loops over the signal timings of the card (dict iteration modelled as list
    order); endTime is accepted and ignored exactly as in the source. -/
def selectCSO (timings : List ExcelSignalTiming) (startTime : DTime)
    (_endTime : DTime) : Option ExcelSignalTiming :=
  match timings.find? (matchesWindow startTime) with
  | some st => some st
  | none =>
    match timings.find? isAllOtherTimes with
    | some st => some st
    | none => timings.find? isFullDay

/- ## getOperationTimes: reassignment of FREE/dash CSO codes (lines 679-689). -/

/-- The loop that reassigns a FREE or dash composite code to an existing
    operating period: for each known code, both the then-branch (code begins
    with "1") and the else-branch set CSOMatch and overwrite strCso, so the
    last iterated code always wins. Returns (strCso, CSOMatch). -/
def freeCsoReassign (keys : List String) (strCso : String) : String × Bool :=
  keys.foldl
    (fun _ k => if ctake k 1 = "1" then (k, true) else (k, true))
    (strCso, false)

/- ## getSignalIntervalData: cso/cycle/offset parsing for one row (757-780). -/

inductive ParseErr where
  /-- a ValueError wrapped into the card-level ParsingCardError by the
      try/except of the final branch -/
  | parsingCard (msg : String)
  /-- an uncaught ValueError escaping getSignalIntervalData -/
  | valueError (msg : String)
deriving DecidableEq, Repr

/-- Python `s.endswith(suf)`. -/
def pyEndsWith (s suf : String) : Bool :=
  List.isPrefixOf suf.toList.reverse s.toList.reverse

def pyFloatE (s : String) : Except ParseErr ℚ :=
  match pyFloat s with
  | some q => Except.ok q
  | none => Except.error (ParseErr.valueError s)

/-- Lines 757-780: classify the composite cso, fill cycle/offset/isActuated.
    Only the final branch wraps its ValueErrors into a ParsingCardError; in
    all other branches a failing float() escapes as a ValueError. -/
def parseRowTiming (strCso strCycle strOffset : String) :
    Except ParseErr ExcelSignalTiming :=
  let st0 : ExcelSignalTiming := { cso := strCso }
  if pyEndsWith strCso "-" = true ∧ clen strCso = 3 ∧ strCycle ≠ "--" then
    if pyEndsWith strCso "--" = true then
      Except.ok { st0 with offset := 0, cycle := some 0, isActuated := true }
    else
      match pyFloatE strCycle with
      | Except.ok c => Except.ok { st0 with offset := 0, cycle := some c }
      | Except.error e => Except.error e
  else if pyEndsWith strCso "--" = true ∧ clen strCso = 4 ∧ strCycle = "--" then
    match pyFloatE strCycle with
    | Except.ok c => Except.ok { st0 with offset := 0, cycle := some c }
    | Except.error e => Except.error e
  else if strCso = "FREE" ∨ strCso = "free" then
    Except.ok { st0 with isActuated := true }
  else
    let cycRes : Option (Option ℚ × Bool) :=
      if ccontains strCycle '-' = true then some (none, true)
      else (pyFloat strCycle).map (fun c => (some c, false))
    match cycRes with
    | none => Except.error (ParseErr.parsingCard strCycle)
    | some cb =>
      match (if ccontains strOffset '-' = true then some 0 else pyFloat strOffset) with
      | none => Except.error (ParseErr.parsingCard strOffset)
      | some off =>
        Except.ok { st0 with cycle := cb.1, isActuated := cb.2, offset := off }

/- ## checkForWeekdayPlan (516-527) and getOperationTimes.setTimes (537-641). -/

/-- checkForWeekdayPlan: the two stripped day cells, three and two columns
    left of the CYCLE column. -/
def checkForWeekdayPlan (thurs fri : String) : Bool :=
  if pyStrip thurs = "X" ∧ pyStrip fri = "X" then true
  else if pyStrip thurs = "x" ∧ pyStrip fri = "x" then true
  else false

/-- A raw spreadsheet cell as xlrd delivers it to setTimes. -/
inductive CellVal where
  | num (x : ℚ)
  | str (s : String)
deriving DecidableEq, Repr

/-- Python `str(cellValue).strip()` is empty. -/
def cellBlank : CellVal → Bool
  | CellVal.num _ => false
  | CellVal.str s => pyStrip s == ""

/-- Modelled from the spec: xlrd.xldate_as_tuple (external library), which
    interprets a numeric cell as a spreadsheet date-serial whose fractional
    part encodes the time of day, rounded to the nearest second
    (e.g. 0.75 becomes 18:00); we keep the (hour, minute) components. -/
def xldateHM (x : ℚ) : Int × Int :=
  let frac : ℚ := x - (x.floor : ℚ)
  let secs : Int := (frac * 86400 + 1 / 2).floor
  (secs / 3600, (secs % 3600) / 60)

/-- The state that one call of setTimes threads through its cell loop:
    the start/end times of the record together with the function-local flags. -/
structure STState where
  startTime : DTime
  endTime : DTime
  gotStartTime : Bool
  gotStartTime2 : Bool
  hasAllOtherTimes : Bool
deriving DecidableEq, Repr

/-- Time fields of a freshly constructed ExcelSignalTiming, with cleared flags. -/
def initSTState : STState := ⟨⟨23, 59⟩, ⟨23, 59⟩, false, false, false⟩

def pyIntE (s : String) : Except ParseErr Int :=
  match pyInt s with
  | some n => Except.ok n
  | none => Except.error (ParseErr.valueError s)

/-- The textual time-range grammars of setTimes (lines 573-639): two
    independent ifs, then an if/elif chain; the first two branches re-bind
    the local cellValue to its stripped form. Any failing int() escapes as a
    ValueError. -/
def grammarBlock (st : STState) (cv0 : String) : Except ParseErr STState := do
  let a1 ←
    if ccontains cv0 '-' = true ∧ ccontains cv0 ':' = false
        ∧ substrOf " - " cv0 = false then do
      let cv := pyStrip cv0
      let s1 ← pyIntE (ctake cv 2)
      let s2 ← pyIntE (cslice cv 2 4)
      let e1 ← pyIntE (cslice cv 5 7)
      let e2 ← pyIntE (cdrop cv 7)
      pure (cv, { st with startTime := ⟨s1, s2⟩, endTime := ⟨e1, e2⟩,
                          gotStartTime := true })
    else pure (cv0, st)
  let cv1 := a1.1
  let st1 := a1.2
  let a2 ←
    if substrOf " - " cv1 = true ∧ ccontains cv1 ':' = false then do
      let cv := pyStrip cv1
      let s1 ← pyIntE (ctake cv 2)
      let s2 ← pyIntE (cslice cv 2 4)
      let e1 ← pyIntE (cslice cv 7 9)
      let e2 ← pyIntE (cdrop cv 9)
      let ee : Int × Int := if e1 = 24 then (23, 59) else (e1, e2)
      pure (cv, { st1 with startTime := ⟨s1, s2⟩, endTime := ⟨ee.1, ee.2⟩,
                           gotStartTime := true })
    else pure (cv1, st1)
  let cv2 := a2.1
  let st2 := a2.2
  if ccontains cv2 '-' = true ∧ ccontains cv2 ':' = true then do
    let stopval := pyFind cv2 "-"
    let startAll := pySliceTo cv2 stopval
    let colonval := pyFind startAll ":"
    let s1 ← pyIntE (pySliceTo startAll colonval)
    let s2 ← pyIntE (pySliceFrom startAll (colonval + 1))
    let endAll := pySliceFrom cv2 (stopval + 1)
    let colonval2 := pyFind endAll ":"
    let e1 ← pyIntE (pySliceTo endAll colonval2)
    let e2 ← pyIntE (pySliceFrom endAll (colonval2 + 1))
    pure { st2 with startTime := ⟨s1, s2⟩, endTime := ⟨e1, e2⟩ }
  else if ccontains cv2 ':' = true ∧ clen cv2 = 5 then
    if st2.gotStartTime2 = false then do
      let s1 ← pyIntE (ctake cv2 2)
      let s2 ← pyIntE (cdrop cv2 3)
      pure { st2 with startTime := ⟨s1, s2⟩, gotStartTime2 := true }
    else do
      let e1 ← pyIntE (ctake cv2 2)
      let e2 ← pyIntE (cdrop cv2 3)
      pure { st2 with endTime := ⟨e1, e2⟩ }
  else if ccontains cv2 ':' = true ∧ substrOf "TO" cv2 = true then do
    let stopval := pyFind cv2 "TO"
    let startAll := pySliceTo cv2 (stopval - 1)
    let colonval := pyFind startAll ":"
    let s1 ← pyIntE (pySliceTo startAll colonval)
    let s2 ← pyIntE (pySliceFrom startAll (colonval + 1))
    let endAll := pySliceFrom cv2 (stopval + 3)
    let colonval2 := pyFind endAll ":"
    let e1 ← pyIntE (pySliceTo endAll colonval2)
    let e2 ← pyIntE (pySliceFrom endAll (colonval2 + 1))
    pure { st2 with startTime := ⟨s1, s2⟩, endTime := ⟨e1, e2⟩ }
  else if ccontains cv2 ':' = true ∧ substrOf "to" cv2 = true then do
    let stopval := pyFind cv2 "to"
    let startAll := pySliceTo cv2 (stopval - 1)
    let colonval := pyFind startAll ":"
    let s1 ← pyIntE (pySliceTo startAll colonval)
    let s2 ← pyIntE (pySliceFrom startAll (colonval + 1))
    let endAll := pySliceFrom cv2 (stopval + 3)
    let colonval2 := pyFind endAll ":"
    let e1 ← pyIntE (pySliceTo endAll colonval2)
    let e2 ← pyIntE (pySliceFrom endAll (colonval2 + 1))
    pure { st2 with startTime := ⟨s1, s2⟩, endTime := ⟨e1, e2⟩ }
  else pure st2

/-- One iteration of the setTimes cell loop (lines 543-639). `wk` is the
    constant result of checkForWeekdayPlan for this row. -/
def setTimesStep (wk : Bool) (st : STState) (cell : CellVal) :
    Except ParseErr STState :=
  if cellBlank cell = true then Except.ok st
  else if wk = false then
    Except.ok { st with startTime := ⟨23, 59⟩, endTime := ⟨23, 59⟩,
                        gotStartTime := true }
  else
    match cell with
    | CellVal.num x =>
      let hm : Int × Int := if x = 1 then (0, 0) else xldateHM x
      if st.gotStartTime = false then
        Except.ok { st with startTime := ⟨hm.1, hm.2⟩, gotStartTime := true }
      else
        Except.ok { st with endTime := ⟨hm.1, hm.2⟩ }
    | CellVal.str cv =>
      if substrOf "event" cv = true ∨ substrOf "Event" cv = true
          ∨ substrOf "Game" cv = true then
        Except.ok { st with startTime := ⟨23, 59⟩, endTime := ⟨23, 59⟩ }
      else if substrOf "TIMES" cv = true ∨ substrOf "Times" cv = true then
        Except.ok { st with hasAllOtherTimes := true, startTime := ⟨0, 0⟩,
                            endTime := ⟨0, 0⟩, gotStartTime := true }
      else if st.gotStartTime = false then grammarBlock st cv
      else Except.ok st

/-- setTimes: fold the cell loop over the scanned row cells. -/
def setTimes (wk : Bool) (cells : List CellVal) (st : STState) :
    Except ParseErr STState :=
  cells.foldlM (setTimesStep wk) st

/- ## Movement classification (groupMovementToTurnType 1165-1195,
     mapMovements.getDirections 1232-1251). -/

/-- The three keys of the turn-type indicators dict (TURN_LEFT, TURN_THRU,
    TURN_RIGHT). The Python-2 dict fixes no iteration order, so every
    function below takes the order as an argument. -/
inductive TurnGroup where
  | left
  | thru
  | right
deriving DecidableEq, Repr

def turnStrings : TurnGroup → List String
  | TurnGroup.left => ["LT", "LT2"]
  | TurnGroup.thru => ["TH", "TH2"]
  | TurnGroup.right => ["RT", "RT2"]

def turnIndicators : TurnGroup → List String
  | TurnGroup.left =>
    ["LT\x27S", "-L", "WB-L", "EB-L", "SB-L", "NB-L", "LEFT TURN", " LT",
     "NBLT", "SBLT", "WBLT", "EBLT", "(NBLT)", "(SBLT)", "(WBLT)", "(EBLT)"]
  | TurnGroup.thru => [" THRU", " THROUGH", "(THRU)"]
  | TurnGroup.right => ["RIGHT TURN", "BRT", " RT"]

/-- The inner loop body of groupMovementToTurnType for one indicator:
    extend on a match (recording whether THRU was seen), then the per-
    iteration addRightToThru extension. State is (result, thruadded). -/
def gmttInner (gMovName : String) (addRightToThru : Bool) (g : TurnGroup)
    (st : List String × Bool) (ind : String) : List String × Bool :=
  let st1 :=
    if substrOf ind gMovName = true then
      (st.1 ++ turnStrings g, st.2 || decide (g = TurnGroup.thru))
    else st
  if g = TurnGroup.right ∧ st1.2 = true ∧ addRightToThru = true then
    (st1.1 ++ turnStrings g, st1.2)
  else st1

/-- groupMovementToTurnType, with the dict iteration order explicit. -/
def groupMovementToTurnType (order : List TurnGroup) (gMovName : String)
    (addRightToThru : Bool) : List String :=
  (order.foldl
    (fun st g => (turnIndicators g).foldl (gmttInner gMovName addRightToThru g) st)
    ([], false)).1

/-- The four keys of the direction indicators dict of getDirections. -/
inductive DirKey where
  | wb
  | eb
  | nb
  | sb
deriving DecidableEq, Repr

def dirStr : DirKey → String
  | DirKey.wb => "WB"
  | DirKey.eb => "EB"
  | DirKey.nb => "NB"
  | DirKey.sb => "SB"

def dirIndicators : DirKey → List String
  | DirKey.wb =>
    ["WB-", "WB,", ",WB", "WB/", "/WB", "WB&", "&WB", " WB", "WB ", "W/B",
     "(WB", "WB)", "(WB)", "(WESTBOUND)", "WESTBOUND", "WEST "]
  | DirKey.eb =>
    ["EB-", "EB,", ",EB", "EB/", "/EB", "EB&", "&EB", " EB", "EB ", "E/B",
     "(EB", "(EB)", "EB)", "(EASTBOUND)", "EASTBOUND", "EAST "]
  | DirKey.nb =>
    ["NB-", "NB,", ",NB", "NB/", "/NB", "NB&", "&NB", " NB", "NB ", "N/B",
     "(NB", "NB)", "(NORTHBOUND)", "NORTHBOUND", "NORTH "]
  | DirKey.sb =>
    ["SB-", "SB,", ",SB", "SB/", "/SB", "SB&", "&SB", " SB", "SB ", "S/B",
     "(SB", "SB)", "(SOUTHBOUND)", "SOUTHBOUND", "SOUTH "]

/-- The hard-coded street names excluded inside the getDirections match. -/
def dirExcluded (g : String) : Bool :=
  g == "SOUTH VAN NESS" || g == "WEST PORTAL" || g == "NORTH POINT"
    || g == "I-80 E OFF-RAMP" || g == "HWY 101 SOUTHBOUND RAMP"

/-- mapMovements.getDirections with the dict iteration order explicit:
    per direction, append on the first indicator that occurs in the label
    (and the label is not excluded), then break. -/
def getDirections (order : List DirKey) (gMovName : String) : List String :=
  order.foldl
    (fun acc d =>
      if ((dirIndicators d).any (fun ind => substrOf ind gMovName))
          ∧ dirExcluded gMovName = false then
        acc ++ [dirStr d]
      else acc)
    []

/-- Does some THRU group entry precede some RIGHT group entry. -/
def thruThenRight : List TurnGroup → Bool
  | [] => false
  | TurnGroup.thru :: rest => rest.contains TurnGroup.right || thruThenRight rest
  | TurnGroup.left :: rest => thruThenRight rest
  | TurnGroup.right :: rest => thruThenRight rest

/-- The label of claim C8. -/
def c8lbl : String := "17TH ST. W/B THRU"

/- ## The __main__ argument check (lines 1837-1839). -/

/-- `sys.argv` is the script name followed by the positional arguments;
    the check exits with code 2 when `len(sys.argv) < 6`. -/
def mainArgvCheck (argv : List String) : Option Nat :=
  if argv.length < 6 then some 2 else none

/- ## getPhasingData row pipeline (826-930) and fillPhaseInfo (813-824). -/

def intervalStateGreen : List String :=
  ["G", "G+G", "G*", "G G", "FY", "F", "G+F", "U", "T", "G + G", "G + F", "ON"]

def intervalStateYellow : List String := ["Y", "SY"]

def intervalStateRed : List String := ["R", "RH", "OFF", "FR"]

/-- One cell of a movement row, uppercased and stripped, mapped onto
    "", "G", "Y" or "R"; `none` marks an unrecognized token (the row is then
    dropped). The dead `or "-R-" in intervalStateRed` disjunct is kept. -/
def normalizeCell (raw : String) : Option String :=
  let s := pyStrip (pyUpper raw)
  if s = "" then some ""
  else if intervalStateGreen.elem s then some "G"
  else if intervalStateYellow.elem s then some "Y"
  else if intervalStateRed.elem s || intervalStateRed.elem "-R-" then some "R"
  else none

def normalizeRow (cells : List String) : Option (List String) :=
  cells.mapM normalizeCell

/-- The label exclusions of getPhasingData (line 858). -/
def excludedLabel (g : String) : Bool :=
  g == "" || substrOf "PEDS " g || substrOf "PED " g || substrOf "XING " g
    || substrOf "MUNI " g || substrOf "TRAIN " g || substrOf "FLASHING " g
    || g == "MUNI" || substrOf " MUNI" g || substrOf "RAIL" g

/-- The surviving movement rows of getPhasingData, in order: label-excluded
    rows, rows with an unrecognized state and rows that are entirely blank
    are dropped before fillPhaseInfo is applied. -/
def phasingRows (rows : List (String × List String)) : List (List String) :=
  rows.foldr
    (fun r acc =>
      let g := pyUpper r.1
      if excludedLabel g = true then acc
      else
        match normalizeRow r.2 with
        | none => acc
        | some data =>
          if data = List.replicate data.length "" then acc else data :: acc)
    []

/-- The forward pass of fillPhaseInfo: `phaseInfo[i] = phaseInfo[i-1]` reads
    the already-updated predecessor, i.e. a carried fill. -/
def fwdFill (prev : String) : List String → List String
  | [] => []
  | x :: xs =>
    let x' := if x = "" ∧ prev ≠ "" then prev else x
    x' :: fwdFill x' xs

def forwardPass : List String → List String
  | [] => []
  | x :: xs => x :: fwdFill x xs

/-- The backward pass, counting down from `len(phaseInfo)-1` to 0; `n + 1`
    means index `n` is processed next. Reading `phaseInfo[i+1]` past the end
    is the IndexError, modelled as `none`; it is only attempted when
    `phaseInfo[i]` is blank. -/
def backwardAux : Nat → List String → Option (List String)
  | 0, l => some l
  | n + 1, l =>
    match l.get? n with
    | none => none
    | some v =>
      if v = "" then
        match l.get? (n + 1) with
        | none => none
        | some w => backwardAux n (if w ≠ "" then l.set n w else l)
      else backwardAux n l

def backwardPass (l : List String) : Option (List String) :=
  backwardAux l.length l

/-- fillPhaseInfo: forward fill, then backward fill; `none` models the
    IndexError of the backward pass. -/
def fillPhaseInfo (l : List String) : Option (List String) :=
  backwardPass (forwardPass l)

/- ## Helper lemmas. -/

theorem countP_two_le {α : Type} (pG pY q : α → Bool) (l : List α)
    (hd : ∀ a ∈ l, ¬(pG a = true ∧ pY a = true))
    (hG : ∀ a ∈ l, pG a = true → q a = true)
    (hY : ∀ a ∈ l, pY a = true → q a = true) :
    l.countP pG + l.countP pY ≤ l.countP q := by
  induction l with
  | nil => simp
  | cons a l ih =>
    have base := ih (fun x hx => hd x (List.mem_cons_of_mem a hx))
      (fun x hx => hG x (List.mem_cons_of_mem a hx))
      (fun x hx => hY x (List.mem_cons_of_mem a hx))
    have ha := hd a (List.mem_cons_self a l)
    have hag := hG a (List.mem_cons_self a l)
    have hay := hY a (List.mem_cons_self a l)
    simp only [List.countP_cons]
    cases hpg : pG a with
    | true =>
      cases hpy : pY a with
      | true => exact absurd ⟨hpg, hpy⟩ ha
      | false => simp [hpg, hpy, hag hpg]; omega
    | false =>
      cases hpy : pY a with
      | true => simp [hpg, hpy, hay hpy]; omega
      | false => cases hq : q a <;> simp [hpg, hpy, hq] <;> omega

theorem countP_congr_mem {α : Type} {p q : α → Bool} {l : List α}
    (h : ∀ a ∈ l, p a = q a) : l.countP p = l.countP q := by
  induction l with
  | nil => simp
  | cons a l ih =>
    simp only [List.countP_cons, h a (List.mem_cons_self a l),
      ih (fun x hx => h x (List.mem_cons_of_mem a hx))]

theorem phasesTotal_append (a b : List PPhase) :
    phasesTotal (a ++ b) = phasesTotal a + phasesTotal b := by
  simp [phasesTotal]

theorem phasesTotal_singleton (p : PPhase) : phasesTotal [p] = phaseTotal p := by
  simp [phasesTotal]

/- ## Soundness of one getPhases interval on a valid column. -/

theorem cellState_valid (grid : List (String × List String)) (N : Nat)
    (hWF : ∀ r ∈ grid, r.2.length = N ∧ ∀ s ∈ r.2, validState s)
    (t : Nat) (ht1 : 1 ≤ t) (ht2 : t ≤ N) :
    ∀ m ∈ gmovs grid, validState (cellState grid m t) := by
  intro m hm
  unfold cellState
  cases hf : grid.find? (fun r => r.1 == m) with
  | none =>
    exfalso
    rw [List.find?_eq_none] at hf
    obtain ⟨r, hr, hrm⟩ := List.mem_map.mp hm
    exact hf r hr (by simp [hrm])
  | some r =>
    have hrg : r ∈ grid := List.mem_of_find?_eq_some hf
    obtain ⟨hlen, hval⟩ := hWF r hrg
    have hlt : t - 1 < r.2.length := by omega
    dsimp only
    have : r.2.getD (t - 1) "" = r.2.get ⟨t - 1, hlt⟩ := by
      rw [List.getD_eq_get?, List.get?_eq_get hlt]
      rfl
    rw [this]
    exact hval _ (r.2.get_mem _ _)

theorem stepOne_sound (grid : List (String × List String)) (t : Nat) (d : ℚ)
    (pPhase : PPhase)
    (hcol : ∀ m ∈ gmovs grid, validState (cellState grid m t))
    (hinv : ∃ p : String → Bool, pPhase.movs = (gmovs grid).filter p) :
    ∃ pushed p', stepOne grid t d pPhase = some (pushed, p')
      ∧ phasesTotal pushed + phaseTotal p' = phaseTotal pPhase + d
      ∧ ∃ q : String → Bool, p'.movs = (gmovs grid).filter q := by
  obtain ⟨p, hp⟩ := hinv
  unfold stepOne
  dsimp only
  split_ifs with h1 h2 h3 h4 h5 h6 h7 h8
  · exact ⟨_, _, rfl, by simp [phasesTotal_singleton, phaseTotal] <;> ring,
      ⟨_, rfl⟩⟩
  · exact ⟨_, _, rfl, by simp [phasesTotal, phaseTotal] <;> ring, ⟨p, hp⟩⟩
  · exact ⟨_, _, rfl, by simp [phasesTotal, phaseTotal] <;> ring, ⟨p, hp⟩⟩
  · exact ⟨_, _, rfl, by simp [phasesTotal, phaseTotal] <;> ring, ⟨p, hp⟩⟩
  · exact ⟨_, _, rfl, by simp [phasesTotal_singleton, phaseTotal] <;> ring,
      ⟨_, rfl⟩⟩
  · exact ⟨_, _, rfl, by simp [phasesTotal_singleton, phaseTotal] <;> ring,
      ⟨_, rfl⟩⟩
  · exact ⟨_, _, rfl, by simp [phasesTotal, phaseTotal] <;> ring, ⟨p, hp⟩⟩
  · exact ⟨_, _, rfl, by simp [phasesTotal_singleton, phaseTotal] <;> ring,
      ⟨_, rfl⟩⟩
  · -- the final fallback is unreachable on a valid column
    exfalso
    have hgM : countIn (greenMovs grid t) pPhase.movs =
        (gmovs grid).countP
          (fun m => pPhase.movs.elem m && (cellState grid m t == "G")) := by
      simp [countIn, greenMovs, List.countP_filter]
    have hyM : countIn (yellowMovs grid t) pPhase.movs =
        (gmovs grid).countP
          (fun m => pPhase.movs.elem m && (cellState grid m t == "Y")) := by
      simp [countIn, yellowMovs, List.countP_filter]
    have hrM : countIn (redMovs grid t) pPhase.movs =
        (gmovs grid).countP
          (fun m => pPhase.movs.elem m && (cellState grid m t == "R")) := by
      simp [countIn, redMovs, List.countP_filter]
    have hpmlen : pPhase.movs.length = (gmovs grid).countP p := by
      rw [hp, List.countP_eq_length_filter]
    have hle : countIn (greenMovs grid t) pPhase.movs
        + countIn (yellowMovs grid t) pPhase.movs ≤ pPhase.movs.length := by
      rw [hgM, hyM, hpmlen]
      apply countP_two_le
      · intro a _ hcontra
        obtain ⟨hg, hy⟩ := hcontra
        simp only [Bool.and_eq_true, beq_iff_eq] at hg hy
        rw [hg.2] at hy
        exact absurd hy.2 (by decide)
      · intro a _ hg
        simp only [Bool.and_eq_true] at hg
        have := List.elem_iff.mp hg.1
        rw [hp, List.mem_filter] at this
        exact this.2
      · intro a _ hy
        simp only [Bool.and_eq_true] at hy
        have := List.elem_iff.mp hy.1
        rw [hp, List.mem_filter] at this
        exact this.2
    have hzero : countIn (greenMovs grid t) pPhase.movs
        + countIn (yellowMovs grid t) pPhase.movs = 0 := by
      by_contra hne
      exact h5 ⟨by omega, by omega⟩
    have hgz : countIn (greenMovs grid t) pPhase.movs = 0 := by omega
    have hyz : countIn (yellowMovs grid t) pPhase.movs = 0 := by omega
    have hcg : greenMovs grid t = [] := by
      have : (greenMovs grid t).length + (yellowMovs grid t).length ≤ 0 := by
        omega
      have := Nat.le_zero.mp (le_trans (Nat.le_add_right _ _) this)
      exact List.length_eq_zero.mp this
    have hcy : yellowMovs grid t = [] := by
      have : (greenMovs grid t).length + (yellowMovs grid t).length ≤ 0 := by
        omega
      have := Nat.le_zero.mp (le_trans (Nat.le_add_left _ _) this)
      exact List.length_eq_zero.mp this
    have hallR : ∀ m ∈ gmovs grid, (cellState grid m t == "R") = true := by
      intro m hm
      rcases hcol m hm with hG | hY | hR
      · exfalso
        have : m ∈ greenMovs grid t := by
          rw [greenMovs, List.mem_filter]
          exact ⟨hm, by simp [hG]⟩
        rw [hcg] at this
        exact absurd this (List.not_mem_nil m)
      · exfalso
        have : m ∈ yellowMovs grid t := by
          rw [yellowMovs, List.mem_filter]
          exact ⟨hm, by simp [hY]⟩
        rw [hcy] at this
        exact absurd this (List.not_mem_nil m)
      · simp [hR]
    have hrfull : countIn (redMovs grid t) pPhase.movs = pPhase.movs.length := by
      rw [hrM, hpmlen]
      have step1 : (gmovs grid).countP
          (fun m => pPhase.movs.elem m && (cellState grid m t == "R"))
          = (gmovs grid).countP (fun m => pPhase.movs.elem m) := by
        apply countP_congr_mem
        intro a ha
        simp [hallR a ha]
      rw [step1]
      apply countP_congr_mem
      intro a ha
      cases hpa : p a with
      | true =>
        have hmem : a ∈ pPhase.movs := by
          rw [hp, List.mem_filter]
          exact ⟨ha, hpa⟩
        simp [hpa, hmem]
      | false =>
        have hnmem : a ∉ pPhase.movs := by
          rw [hp, List.mem_filter]
          intro hcontra
          rw [hpa] at hcontra
          exact absurd hcontra.2 (by decide)
        simp [hpa, hnmem]
    exact h7 ⟨hrfull, hcg⟩

theorem range'_zip_cons (t : Nat) (d : ℚ) (ds : List ℚ) :
    (List.range' t (ds.length + 1)).zip (d :: ds)
      = (t, d) :: (List.range' (t + 1) ds.length).zip ds := by
  rw [List.range'_succ]
  rfl

theorem phasesLoop_sound (grid : List (String × List String)) (N : Nat)
    (hWF : ∀ r ∈ grid, r.2.length = N ∧ ∀ s ∈ r.2, validState s) :
    ∀ (ds : List ℚ) (t : Nat) (pPhase : PPhase) (acc : List PPhase),
      1 ≤ t → t + ds.length = N + 1 → 1 ≤ ds.length →
      (∃ p : String → Bool, pPhase.movs = (gmovs grid).filter p) →
      ∃ out, phasesLoop grid N ((List.range' t ds.length).zip ds) pPhase acc
          = some out
        ∧ phasesTotal out = phasesTotal acc + phaseTotal pPhase + ds.sum := by
  intro ds
  induction ds with
  | nil =>
    intro t pPhase acc _ _ hlen _
    simp at hlen
  | cons d ds ih =>
    intro t pPhase acc ht hlen _ hinv
    have hcol : ∀ m ∈ gmovs grid, validState (cellState grid m t) := by
      apply cellState_valid grid N hWF t ht
      simp only [List.length_cons] at hlen
      omega
    obtain ⟨pushed, p', hstep, hsum, hinv'⟩ :=
      stepOne_sound grid t d pPhase hcol hinv
    rw [List.length_cons, range'_zip_cons]
    cases ds with
    | nil =>
      have htN : t = N := by
        simp only [List.length_cons, List.length_nil] at hlen
        omega
      refine ⟨(acc ++ pushed) ++ [p'], ?_, ?_⟩
      · simp only [List.length_nil, List.range'_zero, List.zip_nil_left,
          phasesLoop, hstep]
        rw [if_pos htN]
      · rw [phasesTotal_append, phasesTotal_append, phasesTotal_singleton]
        simp only [List.sum_cons, List.sum_nil]
        linarith [hsum]
    | cons d2 ds2 =>
      have htN : t ≠ N := by
        simp only [List.length_cons] at hlen
        omega
      obtain ⟨out, hout, hsum2⟩ := ih (t + 1) p' (acc ++ pushed)
        (by omega)
        (by simp only [List.length_cons] at hlen ⊢; omega)
        (by simp)
        hinv'
      refine ⟨out, ?_, ?_⟩
      · simp only [phasesLoop, hstep]
        rw [if_neg htN]
        exact hout
      · rw [hsum2, phasesTotal_append]
        simp only [List.sum_cons]
        linarith [hsum]

/-- Claim C1: on the documented example (rows MAIN EB = G,G,Y,R,R,R,R,R and
    CROSS NB = R,R,R,R,G,G,Y,R with durations 47, 6, 3.5, 0.5, 8, 20, 3.5,
    1.5) getPhases returns exactly two phases: {MAIN EB} with green 53,
    yellow 3.5, all-red 0.5, then {CROSS NB} with green 28, yellow 3.5,
    all-red 1.5. -/
theorem getPhases_worked_example :
    getPhases exGrid exDurs =
      some [⟨["MAIN EB"], 53, 3.5, 0.5⟩, ⟨["CROSS NB"], 28, 3.5, 1.5⟩] := by
  simp [getPhases, numIntervals, phasesLoop, stepOne, greenMovs, yellowMovs,
    redMovs, countIn, cellState, gmovs, exGrid, exDurs, List.range', List.zip,
    List.zipWith, List.find?, List.filter, List.getD, List.get?,
    List.countP, List.countP.go, List.elem]
  norm_num

/-- Claim C2 (amended): for every well-formed grid/duration pair with at
    least two intervals, getPhases succeeds and the green + yellow + all-red
    total over all returned phases equals the sum of the raw interval
    durations exactly (hence within any tolerance). -/
theorem getPhases_duration_conservation (grid : List (String × List String))
    (durs : List ℚ) (hWF : wellFormed grid durs) (h2 : 2 ≤ numIntervals grid) :
    ∃ ps, getPhases grid durs = some ps ∧ phasesTotal ps = durs.sum := by
  obtain ⟨hrows, hlen⟩ := hWF
  cases durs with
  | nil => rw [List.length_nil] at hlen; omega
  | cons d rest =>
    have hN : numIntervals grid = rest.length + 1 := by
      rw [← hlen]
      simp
    unfold getPhases
    rw [hN]
    rw [if_neg (by omega)]
    rw [range'_zip_cons]
    have hrows' : ∀ r ∈ grid, r.2.length = rest.length + 1 ∧ ∀ s ∈ r.2, validState s := by
      rw [← hN]
      exact hrows
    obtain ⟨out, hout, hsum⟩ := phasesLoop_sound grid (rest.length + 1) hrows'
      rest 2 ⟨greenMovs grid 1, d, 0, 0⟩ []
      (by omega) (by omega) (by rw [hN] at h2; omega)
      ⟨fun m => cellState grid m 1 == "G", rfl⟩
    refine ⟨out, hout, ?_⟩
    rw [hsum]
    simp [phasesTotal, phaseTotal]

/-- Claim C2 (counterexample): a well-formed single-interval card, for which
    getPhases returns no phases at all, so the phase totals do not sum to the
    interval durations. -/
theorem getPhases_one_interval_cex :
    wellFormed oneIntervalGrid oneIntervalDurs
    ∧ getPhases oneIntervalGrid oneIntervalDurs = some []
    ∧ phasesTotal [] ≠ oneIntervalDurs.sum := by
  refine ⟨?_, ?_, ?_⟩
  · constructor
    · intro r hr
      fin_cases hr <;> constructor <;> simp [numIntervals, oneIntervalGrid, validState]
    · rfl
  · simp [getPhases, numIntervals, phasesLoop, oneIntervalGrid, oneIntervalDurs,
      List.range', List.zip, List.zipWith]
  · simp [phasesTotal, oneIntervalDurs]

/-- Claim C2 (witness): the conservation theorem instantiated on a concrete
    well-formed two-movement, eight-interval card. -/
theorem getPhases_duration_conservation_w :
    ∃ ps, getPhases wGrid wDurs = some ps ∧ phasesTotal ps = wDurs.sum := by
  apply getPhases_duration_conservation wGrid wDurs
  · constructor
    · intro r hr
      fin_cases hr <;> constructor <;> simp [numIntervals, wGrid, validState]
    · rfl
  · simp [numIntervals, wGrid]

/-- Claim C3: a grid state outside the G/Y/R alphabet drives interval 2 into
    the exhaustive fallback branch of getPhases; the branch body reads the
    undefined name cActiveMovs, so the call raises (modelled: returns none)
    instead of closing the phase and reseeding from the green set. -/
theorem getPhases_fallback_crash :
    getPhases fallbackGrid fallbackDurs = none := by
  simp [getPhases, numIntervals, phasesLoop, stepOne, greenMovs, yellowMovs,
    redMovs, countIn, cellState, gmovs, fallbackGrid, fallbackDurs,
    List.range', List.zip, List.zipWith, List.find?, List.filter, List.getD,
    List.get?, List.countP, List.countP.go, List.elem]

theorem find?_none_all {α : Type} {p : α → Bool} {l : List α}
    (h : l.find? p = none) : ∀ x ∈ l, p x = false := by
  intro x hx
  cases hp : p x with
  | true => exact absurd hp (List.find?_eq_none.mp h x hx)
  | false => rfl

theorem find?_first_split {α : Type} (p : α → Bool) :
    ∀ (l : List α) (r : α), l.find? p = some r →
      ∃ pre post, l = pre ++ r :: post ∧ p r = true
        ∧ ∀ x ∈ pre, p x = false := by
  intro l
  induction l with
  | nil =>
    intro r h
    simp at h
  | cons a l ih =>
    intro r h
    rw [List.find?_cons] at h
    cases hpa : p a with
    | true =>
      rw [hpa] at h
      simp at h
      refine ⟨[], l, by simp [h], ?_, by simp⟩
      rw [← h]
      exact hpa
    | false =>
      rw [hpa] at h
      obtain ⟨pre, post, hl, hpr, hpre⟩ := ih r h
      refine ⟨a :: pre, post, by simp [hl], hpr, ?_⟩
      intro x hx
      rcases List.mem_cons.mp hx with h1 | h1
      · rw [h1]
        exact hpa
      · exact hpre x h1

/-- Claim C4: selectCSO returns the first timing whose window contains the
    query start with a nondegenerate window; failing that, some 0:00-0:00
    all-other-times record; failing that, some 0:00-23:59 full-day record;
    failing all three, none. -/
theorem selectCSO_three_tier (ts : List ExcelSignalTiming) (q e : DTime) :
    (∃ pre r post, ts = pre ++ r :: post ∧ matchesWindow q r = true
       ∧ (∀ x ∈ pre, matchesWindow q x = false) ∧ selectCSO ts q e = some r)
    ∨ ((∀ x ∈ ts, matchesWindow q x = false)
       ∧ ∃ r, r ∈ ts ∧ isAllOtherTimes r = true ∧ selectCSO ts q e = some r)
    ∨ ((∀ x ∈ ts, matchesWindow q x = false)
       ∧ (∀ x ∈ ts, isAllOtherTimes x = false)
       ∧ ∃ r, r ∈ ts ∧ isFullDay r = true ∧ selectCSO ts q e = some r)
    ∨ ((∀ x ∈ ts, matchesWindow q x = false)
       ∧ (∀ x ∈ ts, isAllOtherTimes x = false)
       ∧ (∀ x ∈ ts, isFullDay x = false) ∧ selectCSO ts q e = none) := by
  cases h1 : ts.find? (matchesWindow q) with
  | some r =>
    left
    obtain ⟨pre, post, hl, hpr, hpre⟩ := find?_first_split (matchesWindow q) ts r h1
    exact ⟨pre, r, post, hl, hpr, hpre, by simp [selectCSO, h1]⟩
  | none =>
    have hn1 := find?_none_all h1
    cases h2 : ts.find? isAllOtherTimes with
    | some r =>
      right; left
      exact ⟨hn1, r, List.mem_of_find?_eq_some h2, List.find?_some h2,
        by simp [selectCSO, h1, h2]⟩
    | none =>
      have hn2 := find?_none_all h2
      cases h3 : ts.find? isFullDay with
      | some r =>
        right; right; left
        exact ⟨hn1, hn2, r, List.mem_of_find?_eq_some h3, List.find?_some h3,
          by simp [selectCSO, h1, h2, h3]⟩
      | none =>
        right; right; right
        exact ⟨hn1, hn2, find?_none_all h3, by simp [selectCSO, h1, h2, h3]⟩

/-- Claim C5 (code bug): reassigning a FREE composite code when the known
    periods are 111 then 222 picks 222 - the last iterated period - even
    though a period beginning with "1" exists, because both branches of the
    loop overwrite strCso. -/
theorem freeCso_merge_bug :
    (freeCsoReassign ["111", "222"] "FREE").1 = "222"
    ∧ (freeCsoReassign ["111", "222"] "FREE").2 = true
    ∧ ctake "111" 1 = "1"
    ∧ ctake "222" 1 ≠ "1" := by
  refine ⟨rfl, rfl, rfl, ?_⟩
  decide

/-- Claim C6 (code bug): a four-character composite code ending in a double
    dash with cycle cell "--" reaches the branch that calls float("--"),
    which raises an uncaught ValueError instead of producing an actuated
    record (and instead of the card-level ParsingCardError). -/
theorem parseRowTiming_doubledash_bug :
    parseRowTiming "12--" "--" "-"
      = Except.error (ParseErr.valueError "--") := by
  rfl

/-- Claim C9 (counterexample): with exactly five positional arguments after
    the script name, len(sys.argv) is 6, so the usage check does not exit,
    contradicting the claim that argument counts up to five exit with code
    2. -/
theorem argcheck_five_args_cex :
    mainArgvCheck
      ("importExcelSignals.py" :: ["dir", "prefix", "cards", "15:30", "18:30"])
      = none := by
  rfl

/-- Claim C9 (amended): the process exits with code 2 exactly when fewer
    than five positional arguments follow the script name (len(sys.argv)
    counts the script name itself). -/
theorem argcheck_amended (prog : String) (args : List String) :
    (mainArgvCheck (prog :: args) = some 2 ↔ args.length < 5)
    ∧ (mainArgvCheck (prog :: args) = none ↔ 5 ≤ args.length) := by
  unfold mainArgvCheck
  simp only [List.length_cons]
  split_ifs with h <;> constructor <;> simp <;> omega

theorem setTimes_not_weekday : ∀ (cells : List CellVal) (st : STState),
    st.startTime = ⟨23, 59⟩ → st.endTime = ⟨23, 59⟩ →
    ∃ out, setTimes false cells st = Except.ok out
      ∧ out.startTime = ⟨23, 59⟩ ∧ out.endTime = ⟨23, 59⟩ := by
  intro cells
  induction cells with
  | nil =>
    intro st h1 h2
    exact ⟨st, rfl, h1, h2⟩
  | cons c cs ih =>
    intro st h1 h2
    have hstep : ∃ st', setTimesStep false st c = Except.ok st'
        ∧ st'.startTime = ⟨23, 59⟩ ∧ st'.endTime = ⟨23, 59⟩ := by
      unfold setTimesStep
      by_cases hb : cellBlank c = true
      · rw [if_pos hb]
        exact ⟨st, rfl, h1, h2⟩
      · rw [if_neg hb, if_pos rfl]
        exact ⟨_, rfl, rfl, rfl⟩
    obtain ⟨st', hst', h1', h2'⟩ := hstep
    obtain ⟨out, hout, ho1, ho2⟩ := ih st' h1' h2'
    refine ⟨out, ?_, ho1, ho2⟩
    unfold setTimes at hout ⊢
    rw [List.foldlM_cons, hst']
    exact hout

/-- Claim C7 (counterexample): the two weekday cells "X" and "x" are equal
    case-insensitively, yet checkForWeekdayPlan classifies the row as not
    weekday-active. -/
theorem checkForWeekdayPlan_mixed_case_cex :
    checkForWeekdayPlan "X" "x" = false := by
  rfl

/-- Claim C7 (amended): a row is weekday-active exactly when its two day
    cells are both "X" or both "x" after stripping (matching case; a mixed
    "X"/"x" pair does not qualify), and a row that is not weekday-active
    comes out of setTimes with start = end = 23:59. -/
theorem checkForWeekdayPlan_amended (thurs fri : String)
    (cells : List CellVal) :
    (checkForWeekdayPlan thurs fri = true ↔
      ((pyStrip thurs = "X" ∧ pyStrip fri = "X")
        ∨ (pyStrip thurs = "x" ∧ pyStrip fri = "x")))
    ∧ (checkForWeekdayPlan thurs fri = false →
        ∃ out, setTimes (checkForWeekdayPlan thurs fri) cells initSTState
            = Except.ok out
          ∧ out.startTime = ⟨23, 59⟩ ∧ out.endTime = ⟨23, 59⟩) := by
  constructor
  · unfold checkForWeekdayPlan
    split_ifs with h1 h2
    · simp [h1]
    · simp [h2]
    · constructor
      · intro h
        simp at h
      · intro h
        rcases h with ha | hb
        · exact absurd ha h1
        · exact absurd hb h2
  · intro hfalse
    rw [hfalse]
    exact setTimes_not_weekday cells initSTState rfl rfl

/-- Claim C7 (witness): the amended theorem applied to the mixed-case day
    cells and a concrete time cell. -/
theorem checkForWeekdayPlan_amended_w :
    ∃ out, setTimes (checkForWeekdayPlan "X" "x")
        [CellVal.str "0700-1900"] initSTState = Except.ok out
      ∧ out.startTime = ⟨23, 59⟩ ∧ out.endTime = ⟨23, 59⟩ :=
  (checkForWeekdayPlan_amended "X" "x" [CellVal.str "0700-1900"]).2 rfl

/- ## Safety of fillPhaseInfo. -/

theorem backwardAux_safe : ∀ (n : Nat) (l : List String), n < l.length →
    ∃ out, backwardAux n l = some out := by
  intro n
  induction n with
  | zero =>
    intro l _
    exact ⟨l, rfl⟩
  | succ n ih =>
    intro l hlt
    have h1 : n < l.length := by omega
    unfold backwardAux
    cases hv : l.get? n with
    | none =>
      rw [List.get?_eq_none] at hv
      omega
    | some v =>
      dsimp only
      by_cases hveq : v = ""
      · rw [if_pos hveq]
        cases hw : l.get? (n + 1) with
        | none =>
          rw [List.get?_eq_none] at hw
          omega
        | some w =>
          have hlen2 : (if w ≠ "" then l.set n w else l).length = l.length := by
            split_ifs <;> simp
          obtain ⟨out, hout⟩ := ih _ (by rw [hlen2]; omega)
          exact ⟨out, hout⟩
      · rw [if_neg hveq]
        exact ih l h1

theorem backwardPass_safe (l : List String) (v : String)
    (h : l.get? (l.length - 1) = some v) (hv : v ≠ "") :
    ∃ out, backwardPass l = some out := by
  unfold backwardPass
  cases hl : l.length with
  | zero => exact ⟨l, rfl⟩
  | succ n =>
    rw [hl] at h
    unfold backwardAux
    rw [Nat.succ_sub_one] at h
    rw [h]
    dsimp only
    rw [if_neg hv]
    exact backwardAux_safe n l (by omega)

theorem fwdFill_length (prev : String) :
    ∀ xs : List String, (fwdFill prev xs).length = xs.length := by
  intro xs
  induction xs generalizing prev with
  | nil => rfl
  | cons x xs ih => simp [fwdFill, ih]

theorem fwdFill_last : ∀ (xs : List String) (prev : String),
    prev ≠ "" ∨ (∃ x ∈ xs, x ≠ "") → xs ≠ [] →
    ∃ v, (fwdFill prev xs).get? (xs.length - 1) = some v ∧ v ≠ "" := by
  intro xs
  induction xs with
  | nil =>
    intro prev _ hne
    exact absurd rfl hne
  | cons x xs ih =>
    intro prev hnb _
    have hx' : (if x = "" ∧ prev ≠ "" then prev else x) ≠ ""
        ∨ ∃ z ∈ xs, z ≠ "" := by
      rcases hnb with hp | ⟨z, hz, hzne⟩
      · left
        split_ifs with hcond
        · exact hp
        · intro hxe
          exact hcond ⟨hxe, hp⟩
      · rcases List.mem_cons.mp hz with h1 | h1
        · left
          subst h1
          split_ifs with hcond
          · exact absurd hcond.1 hzne
          · exact hzne
        · right
          exact ⟨z, h1, hzne⟩
    cases hxs : xs with
    | nil =>
      refine ⟨if x = "" ∧ prev ≠ "" then prev else x, rfl, ?_⟩
      rcases hx' with h | ⟨z, hz, _⟩
      · exact h
      · rw [hxs] at hz
        exact absurd hz (List.not_mem_nil z)
    | cons y ys =>
      rw [← hxs]
      have hlen : (x :: xs).length - 1 = xs.length := by simp
      rw [hlen]
      have hxsne : xs ≠ [] := by
        rw [hxs]
        simp
      obtain ⟨v, hv, hvne⟩ :=
        ih (if x = "" ∧ prev ≠ "" then prev else x) hx' hxsne
      refine ⟨v, ?_, hvne⟩
      show ((if x = "" ∧ prev ≠ "" then prev else x)
          :: fwdFill (if x = "" ∧ prev ≠ "" then prev else x) xs).get? xs.length
        = some v
      rw [hxs]
      rw [hxs] at hv
      simpa using hv

theorem fillPhaseInfo_nonblank_safe (l : List String)
    (hx : ∃ x ∈ l, x ≠ "") : ∃ out, fillPhaseInfo l = some out := by
  cases l with
  | nil =>
    obtain ⟨x, hxm, _⟩ := hx
    exact absurd hxm (List.not_mem_nil x)
  | cons a xs =>
    unfold fillPhaseInfo
    cases hxs : xs with
    | nil =>
      obtain ⟨x, hxm, hxne⟩ := hx
      rw [hxs] at hxm
      have hax : x = a := by
        rcases List.mem_cons.mp hxm with h1 | h1
        · exact h1
        · exact absurd h1 (List.not_mem_nil x)
      subst hax
      apply backwardPass_safe (forwardPass [x]) x
      · rfl
      · exact hxne
    | cons y ys =>
      have hnb : a ≠ "" ∨ ∃ z ∈ xs, z ≠ "" := by
        obtain ⟨x, hxm, hxne⟩ := hx
        rcases List.mem_cons.mp hxm with h1 | h1
        · left
          rw [← h1]
          exact hxne
        · right
          exact ⟨x, h1, hxne⟩
      rw [← hxs]
      have hxsne : xs ≠ [] := by
        rw [hxs]
        simp
      obtain ⟨v, hv, hvne⟩ := fwdFill_last xs a hnb hxsne
      apply backwardPass_safe (forwardPass (a :: xs)) v
      · show ((a :: fwdFill a xs).get? ((a :: fwdFill a xs).length - 1)) = some v
        have : (a :: fwdFill a xs).length - 1 = xs.length := by
          simp [fwdFill_length]
        rw [this]
        cases hxs2 : xs with
        | nil => exact absurd hxs2 hxsne
        | cons y2 ys2 =>
          rw [← hxs2]
          have hxl : xs.length = (xs.length - 1) + 1 := by
            rw [hxs2]
            simp
          rw [hxl]
          show (fwdFill a xs).get? (xs.length - 1) = some v
          exact hv
      · exact hvne

theorem phasingRows_nonblank : ∀ (rows : List (String × List String))
    (r : List String), r ∈ phasingRows rows → ∃ x ∈ r, x ≠ "" := by
  intro rows
  induction rows with
  | nil =>
    intro r h
    simp [phasingRows] at h
  | cons row rows ih =>
    intro r h
    unfold phasingRows at h
    rw [List.foldr_cons] at h
    dsimp only at h
    by_cases hex : excludedLabel (pyUpper row.1) = true
    · rw [if_pos hex] at h
      exact ih r h
    · rw [if_neg hex] at h
      cases hn : normalizeRow row.2 with
      | none =>
        rw [hn] at h
        exact ih r h
      | some data =>
        rw [hn] at h
        dsimp only at h
        by_cases hbl : data = List.replicate data.length ""
        · rw [if_pos hbl] at h
          exact ih r h
        · rw [if_neg hbl] at h
          rcases List.mem_cons.mp h with h1 | h1
          · subst h1
            by_contra hall
            push_neg at hall
            exact hbl (List.eq_replicate_iff.mpr ⟨rfl, hall⟩)
          · exact ih r h1

/-- Claim C10: every movement row that survives the getPhasingData filters
    still has a nonblank cell, so the forward pass of fillPhaseInfo leaves
    the last element nonblank and the guarded backward pass never reads past
    the end: fillPhaseInfo cannot raise an IndexError at its call site. -/
theorem fillPhaseInfo_safe (rows : List (String × List String))
    (r : List String) (hr : r ∈ phasingRows rows) :
    ∃ out, fillPhaseInfo r = some out :=
  fillPhaseInfo_nonblank_safe r (phasingRows_nonblank rows r hr)

/-- Claim C10 (witness): a concrete surviving row with leading and trailing
    blanks is filled without an IndexError. -/
theorem fillPhaseInfo_safe_w :
    ∃ out, fillPhaseInfo ["", "G", "", "Y"] = some out :=
  fillPhaseInfo_safe [("MAIN ST EB", ["", "g", "", "y"])] ["", "G", "", "Y"]
    (by decide)

/- ## Order (in)dependence of the movement classifiers on the C8 label. -/

theorem getDirections_c8_aux : ∀ (order : List DirKey) (acc : List String)
    (s : String),
    s ∈ order.foldl
        (fun acc d =>
          if ((dirIndicators d).any (fun ind => substrOf ind c8lbl))
              ∧ dirExcluded c8lbl = false then
            acc ++ [dirStr d]
          else acc)
        acc
      ↔ s ∈ acc ∨ (s = "WB" ∧ DirKey.wb ∈ order) := by
  intro order
  induction order with
  | nil =>
    intro acc s
    simp
  | cons d rest ih =>
    intro acc s
    rw [List.foldl_cons]
    cases d with
    | wb =>
      rw [if_pos (by decide)]
      rw [ih]
      simp only [dirStr, List.mem_append, List.mem_singleton, List.mem_cons]
      tauto
    | eb =>
      rw [if_neg (by decide)]
      rw [ih]
      simp only [List.mem_cons]
      have : ¬(DirKey.wb = DirKey.eb) := by decide
      tauto
    | nb =>
      rw [if_neg (by decide)]
      rw [ih]
      simp only [List.mem_cons]
      have : ¬(DirKey.wb = DirKey.nb) := by decide
      tauto
    | sb =>
      rw [if_neg (by decide)]
      rw [ih]
      simp only [List.mem_cons]
      have : ¬(DirKey.wb = DirKey.sb) := by decide
      tauto

theorem foldl_skip {α β : Type} (f : β → α → β) (l : List α) (st : β)
    (h : ∀ x ∈ l, ∀ s, f s x = s) : l.foldl f st = st := by
  induction l generalizing st with
  | nil => rfl
  | cons x xs ih =>
    rw [List.foldl_cons, h x (List.mem_cons_self x xs)]
    exact ih st (fun y hy s => h y (List.mem_cons_of_mem x hy) s)

theorem gmttInner_skip (a : Bool) (g : TurnGroup) (hg : g ≠ TurnGroup.right)
    (st : List String × Bool) (ind : String)
    (hind : substrOf ind c8lbl = false) :
    gmttInner c8lbl a g st ind = st := by
  simp [gmttInner, hind, hg]

theorem gmttInner_thru_hit (a : Bool) (st : List String × Bool) :
    gmttInner c8lbl a TurnGroup.thru st " THRU" = (st.1 ++ ["TH", "TH2"], true) := by
  have h : substrOf " THRU" c8lbl = true := by decide
  simp [gmttInner, h, turnStrings]

theorem gmttInner_right_miss (a : Bool) (st : List String × Bool) (ind : String)
    (hind : substrOf ind c8lbl = false) :
    gmttInner c8lbl a TurnGroup.right st ind
      = (if st.2 = true ∧ a = true then (st.1 ++ ["RT", "RT2"], st.2) else st) := by
  simp [gmttInner, hind, turnStrings]

theorem turnFold_left (a : Bool) (st : List String × Bool) :
    (turnIndicators TurnGroup.left).foldl (gmttInner c8lbl a TurnGroup.left) st
      = st := by
  apply foldl_skip
  intro ind hind s
  apply gmttInner_skip a TurnGroup.left (by decide) s ind
  revert ind hind
  decide

theorem turnFold_thru (a : Bool) (st : List String × Bool) :
    (turnIndicators TurnGroup.thru).foldl (gmttInner c8lbl a TurnGroup.thru) st
      = (st.1 ++ ["TH", "TH2"], true) := by
  show List.foldl (gmttInner c8lbl a TurnGroup.thru) st [" THRU", " THROUGH", "(THRU)"]
    = (st.1 ++ ["TH", "TH2"], true)
  rw [List.foldl_cons, gmttInner_thru_hit]
  rw [List.foldl_cons, gmttInner_skip a TurnGroup.thru (by decide) _ _ (by decide)]
  rw [List.foldl_cons, gmttInner_skip a TurnGroup.thru (by decide) _ _ (by decide)]
  rfl

theorem turnFold_right (a : Bool) (st : List String × Bool) :
    (turnIndicators TurnGroup.right).foldl (gmttInner c8lbl a TurnGroup.right) st
      = (if st.2 = true ∧ a = true
          then (st.1 ++ ["RT", "RT2"] ++ ["RT", "RT2"] ++ ["RT", "RT2"], st.2)
          else st) := by
  show List.foldl (gmttInner c8lbl a TurnGroup.right) st ["RIGHT TURN", "BRT", " RT"]
    = _
  rw [List.foldl_cons, gmttInner_right_miss a st _ (by decide)]
  by_cases h : st.2 = true ∧ a = true
  · rw [if_pos h]
    rw [List.foldl_cons, gmttInner_right_miss a _ _ (by decide)]
    rw [if_pos (by exact ⟨h.1, h.2⟩)]
    rw [List.foldl_cons, gmttInner_right_miss a _ _ (by decide)]
    rw [if_pos (by exact ⟨h.1, h.2⟩)]
    rw [if_pos h]
    rfl
  · rw [if_neg h]
    rw [List.foldl_cons, gmttInner_right_miss a _ _ (by decide)]
    rw [if_neg h]
    rw [List.foldl_cons, gmttInner_right_miss a _ _ (by decide)]
    rw [if_neg h]
    rw [if_neg h]
    rfl

theorem contains_iff_mem {α : Type} [BEq α] [LawfulBEq α] (l : List α) (x : α) :
    l.contains x = true ↔ x ∈ l := by
  simp [List.contains]

set_option maxHeartbeats 1600000 in
theorem gmtt_c8_aux (a : Bool) : ∀ (order : List TurnGroup) (acc : List String)
    (b : Bool) (s : String),
    s ∈ (order.foldl
        (fun st g => (turnIndicators g).foldl (gmttInner c8lbl a g) st)
        (acc, b)).1
      ↔ s ∈ acc
        ∨ (s ∈ (["TH", "TH2"] : List String) ∧ TurnGroup.thru ∈ order)
        ∨ (s ∈ (["RT", "RT2"] : List String) ∧ a = true
            ∧ ((b = true ∧ TurnGroup.right ∈ order)
                ∨ thruThenRight order = true)) := by
  intro order
  induction order with
  | nil =>
    intro acc b s
    simp [thruThenRight]
  | cons g rest ih =>
    intro acc b s
    rw [List.foldl_cons]
    show s ∈ (rest.foldl _
        ((turnIndicators g).foldl (gmttInner c8lbl a g) (acc, b))).1 ↔ _
    cases g with
    | left =>
      rw [turnFold_left]
      rw [ih acc b s]
      have h1 : ¬(TurnGroup.thru = TurnGroup.left) := by decide
      have h2 : ¬(TurnGroup.right = TurnGroup.left) := by decide
      simp only [List.mem_cons, thruThenRight]
      tauto
    | thru =>
      rw [turnFold_thru]
      dsimp only
      rw [ih (acc ++ ["TH", "TH2"]) true s]
      have h1 : ¬(TurnGroup.right = TurnGroup.thru) := by decide
      simp only [List.mem_cons, List.mem_append, thruThenRight,
        Bool.or_eq_true, contains_iff_mem, List.mem_singleton]
      tauto
    | right =>
      rw [turnFold_right]
      dsimp only
      by_cases hba : b = true ∧ a = true
      · rw [if_pos hba]
        rw [ih (acc ++ ["RT", "RT2"] ++ ["RT", "RT2"] ++ ["RT", "RT2"]) b s]
        simp only [List.mem_cons, List.mem_append, thruThenRight,
          List.mem_singleton]
        have h2 : TurnGroup.right = TurnGroup.right := rfl
        have h3 : ¬(TurnGroup.thru = TurnGroup.right) := by decide
        tauto
      · rw [if_neg hba]
        rw [ih acc b s]
        simp only [List.mem_cons, thruThenRight]
        have h2 : TurnGroup.right = TurnGroup.right := rfl
        have h3 : ¬(TurnGroup.thru = TurnGroup.right) := by decide
        tauto

/-- Claim C8 (amended): on the label 17TH ST. W/B THRU the direction set is
    exactly WB for every iteration order of the direction indicator groups,
    and the turn-type result always contains TH; but RT (the
    addRightToThru extension) is included exactly when some THRU group entry
    is iterated before a RIGHT group entry, so the turn-type result is not
    independent of the dict iteration order. -/
theorem classify_17th_wb_thru_amended :
    (∀ (order : List DirKey) (s : String),
      s ∈ getDirections order c8lbl ↔ (s = "WB" ∧ DirKey.wb ∈ order))
    ∧ (∀ (order : List TurnGroup) (a : Bool),
        ("TH" ∈ groupMovementToTurnType order c8lbl a
          ↔ TurnGroup.thru ∈ order)
        ∧ ("RT" ∈ groupMovementToTurnType order c8lbl a
          ↔ (a = true ∧ thruThenRight order = true))) := by
  constructor
  · intro order s
    unfold getDirections
    rw [getDirections_c8_aux order [] s]
    simp
  · intro order a
    constructor
    · unfold groupMovementToTurnType
      rw [gmtt_c8_aux a order [] false "TH"]
      simp
    · unfold groupMovementToTurnType
      rw [gmtt_c8_aux a order [] false "RT"]
      simp

/-- Claim C8 (counterexample): with the THRU indicator group iterated before
    the RIGHT group the classifier emits RT for 17TH ST. W/B THRU, with the
    RIGHT group first it does not, so the result depends on the Python-2
    dict iteration order. -/
theorem classify_order_dependent_cex :
    "RT" ∈ groupMovementToTurnType
        [TurnGroup.left, TurnGroup.thru, TurnGroup.right] c8lbl true
    ∧ "RT" ∉ groupMovementToTurnType
        [TurnGroup.right, TurnGroup.thru, TurnGroup.left] c8lbl true := by
  decide
